import Mathlib

/-!
# gotty: Gin handler layer (`server/gin_handlers.go`)

A shallow embedding of the handlers that mount a GoTTY terminal server into a
Gin router: the static-asset path rewriter, the trailing-slash and
global-fallback redirects, the basic-auth gate and the WebSocket handler's
effect on the mount's counter and lifecycle context.

Go strings are embedded as Lean `String`; every string operation used by the
handlers works on the character list `String.data`.
-/

namespace Gotty

/-! ## The `strings` package functions used by the handlers -/

/-- Go `strings.HasSuffix(s, suffix)`:
`len(s) >= len(suffix) && s[len(s)-len(suffix):] == suffix`. -/
def strings_HasSuffix (s suffix : String) : Bool :=
  decide (suffix.data.length ≤ s.data.length) &&
    decide (s.data.drop (s.data.length - suffix.data.length) = suffix.data)

/-- Go `strings.Index(s, substr)` on character lists: the position of the first
occurrence of `substr` in `s`, `none` where Go returns `-1`. -/
def indexOf (substr : List Char) : List Char → Option Nat
  | [] => if substr = [] then some 0 else none
  | c :: t =>
    if substr.isPrefixOf (c :: t) then some 0
    else (indexOf substr t).map (fun i => i + 1)

/-- Go `strings.Index(s, substr)`. -/
def strings_Index (s substr : String) : Option Nat :=
  indexOf substr.data s.data

/-- Go `strings.Contains(s, substr)`: `Index(s, substr) >= 0`. -/
def strings_Contains (s substr : String) : Bool :=
  (strings_Index s substr).isSome

/-! ## `GinHandlers.StaticFiles` -/

/-- The part of a `gin.Context` that the static handler reads: the request's
`URL.Path` and the value of the wildcard parameter `c.Param("filepath")`
(the empty string when the matched route has no such parameter). -/
structure StaticRequest where
  urlPath : String
  filepath : String
  deriving Repr, DecidableEq

/-- The closure returned by `GinHandlers.StaticFiles(prefix)`: the value of
`requestPath`, which the handler writes to `req.URL.Path` of the cloned request
it hands to the embedded file server. The argument `pfx` is the factory's
`prefix`, which the source never reads. -/
def StaticFiles (_pfx : String) (c : StaticRequest) : String :=
  if c.urlPath = "/favicon.png" || strings_HasSuffix c.urlPath "/favicon.png" then
    "/favicon.png"
  else if c.filepath ≠ "" then
    if strings_Contains c.urlPath "/js/" then
      "/js" ++ c.filepath
    else if strings_Contains c.urlPath "/css/" then
      "/css" ++ c.filepath
    else
      c.filepath
  else
    c.urlPath

/-! ## Routes and redirects (`RegisterRoutes`, `RegisterGlobalRoutes`) -/

/-- What a handler of this layer does with the response. `redirect` is the
call `c.Redirect(code, location)` with its two arguments (what that call
writes to the response is `gin_Redirect` below); `serveAsset` is the embedded
file server called on a request whose `URL.Path` is the given path; the
remaining constructors stand for the handlers `Index`, `WebSocket`,
`AuthToken` and `Config`, whose bodies are not needed here. -/
inductive Response where
  | redirect (code : Nat) (location : String)
  | serveAsset (requestPath : String)
  | index
  | websocket
  | authToken
  | config
  deriving Repr, DecidableEq

/-- A registered route: `group.GET(path, handler)` or `router.GET(path, handler)`. -/
structure Route where
  method : String
  path : String
  handler : StaticRequest → Response

/-- The routes `GinHandlers.RegisterRoutes(group)` registers, in source order,
with the paths relative to the group as written in the source. -/
def RegisterRoutes : List Route :=
  [ ⟨"GET", "/", fun _ => Response.index⟩,
    ⟨"GET", "", fun c => Response.redirect 301 (c.urlPath ++ "/")⟩,
    ⟨"GET", "/ws", fun _ => Response.websocket⟩,
    ⟨"GET", "/auth_token.js", fun _ => Response.authToken⟩,
    ⟨"GET", "/config.js", fun _ => Response.config⟩,
    ⟨"GET", "/js/*filepath", fun c => Response.serveAsset (StaticFiles "" c)⟩,
    ⟨"GET", "/css/*filepath", fun c => Response.serveAsset (StaticFiles "" c)⟩,
    ⟨"GET", "/favicon.png", fun c => Response.serveAsset (StaticFiles "" c)⟩ ]

/-- The routes `GinHandlers.RegisterGlobalRoutes(router, groupPrefix)` registers
at the router root, in source order; each handler calls
`c.Redirect(302, groupPrefix + c.Request.URL.Path)`, and `redirectWritten`
gives the status and `Location` header that call writes. -/
def RegisterGlobalRoutes (groupPfx : String) : List Route :=
  [ ⟨"GET", "/css/*filepath", fun c => Response.redirect 302 (groupPfx ++ c.urlPath)⟩,
    ⟨"GET", "/js/*filepath", fun c => Response.redirect 302 (groupPfx ++ c.urlPath)⟩,
    ⟨"GET", "/auth_token.js", fun c => Response.redirect 302 (groupPfx ++ c.urlPath)⟩,
    ⟨"GET", "/config.js", fun c => Response.redirect 302 (groupPfx ++ c.urlPath)⟩,
    ⟨"GET", "/favicon.png", fun c => Response.redirect 302 (groupPfx ++ c.urlPath)⟩ ]

/-- The handler a route table holds for a method and a route path as registered. -/
def handlerFor (routes : List Route) (method path : String) :
    Option (StaticRequest → Response) :=
  (routes.find? (fun r => r.method = method && r.path = path)).map (fun r => r.handler)

/-- Gin's matching of a request path against a registered route path, for the
two shapes of route this layer registers: a fixed path matches itself and
binds no parameter; a catch-all `<fixed>*name` matches every path that starts
with `<fixed>` and binds the parameter to `/` followed by the rest. -/
def matchRoute (pattern path : String) : Option String :=
  match indexOf ['*'] pattern.data with
  | none => if pattern = path then some "" else none
  | some i =>
    if (pattern.data.take i).isPrefixOf path.data then
      some ⟨'/' :: path.data.drop i⟩
    else none

/-- The router serving a request: the first registered route of that method
whose path matches runs its handler on the request, with the wildcard
parameter bound by the match; `none` is the router's not-found. -/
def serve : List Route → String → String → Option Response
  | [], _, _ => none
  | r :: rs, method, path =>
    if r.method = method then
      match matchRoute r.path path with
      | some fp => some (r.handler ⟨path, fp⟩)
      | none => serve rs method path
    else serve rs method path

/-! ## What `c.Redirect` writes: `net/http.Redirect` -/

/-- The UTF-8 bytes of a character. -/
def utf8Bytes (c : Char) : List Nat :=
  let v := c.toNat
  if v < 128 then [v]
  else if v < 2048 then [192 + v / 64, 128 + v % 64]
  else if v < 65536 then [224 + v / 4096, 128 + v / 64 % 64, 128 + v % 64]
  else [240 + v / 262144, 128 + v / 4096 % 64, 128 + v / 64 % 64, 128 + v % 64]

/-- The pieces of a path between its slashes. -/
def splitSlash : List Char → List (List Char)
  | [] => [[]]
  | c :: t =>
    if c = '/' then [] :: splitSlash t
    else
      match splitSlash t with
      | [] => [[c]]
      | seg :: segs => (c :: seg) :: segs

/-- One element of a path in Go `path.Clean`, on the stack of elements kept so
far (last kept first): empty and `.` elements are dropped; `..` removes the
element before it, is dropped at the root, and is kept in front of a relative
path. -/
def cleanStep (rooted : Bool) (stack : List (List Char)) (seg : List Char) :
    List (List Char) :=
  if seg = [] ∨ seg = ['.'] then stack
  else if seg = ['.', '.'] then
    match stack with
    | [] => if rooted then [] else [seg]
    | top :: rest => if top = ['.', '.'] then seg :: stack else rest
  else seg :: stack

/-- The elements joined by single slashes. -/
def joinSlash : List (List Char) → List Char
  | [] => []
  | [seg] => seg
  | seg :: segs => seg ++ '/' :: joinSlash segs

/-- Go `path.Clean(p)`: the shortest path equivalent to `p` by lexical
processing: one slash between elements, no `.` element, no inner `..`, no
`..` at the root, no trailing slash except for the root; `.` for the empty
result. -/
def path_Clean (p : String) : String :=
  let rooted := p.data.head? = some '/'
  let kept := ((splitSlash p.data).foldl (cleanStep rooted) []).reverse
  let out := (if rooted then ['/'] else []) ++ joinSlash kept
  if out = [] then "." else String.mk out

/-- Go `path.Split(p)`, first component: `p` up to and including its last
slash. -/
def path_SplitDir (p : String) : String :=
  String.mk ((p.data.reverse.dropWhile (fun c => c ≠ '/')).reverse)

/-- Whether every `%` is followed by two hexadecimal digits (Go `unescape`
in the path, fragment and user-info modes succeeds). -/
def validEscapes : List Char → Bool
  | [] => true
  | c :: t =>
    if c = '%' then
      match t with
      | a :: b :: t2 =>
        (a.isDigit || ('a' ≤ a && a ≤ 'f') || ('A' ≤ a && a ≤ 'F')) &&
        (b.isDigit || ('a' ≤ b && b ≤ 'f') || ('A' ≤ b && b ≤ 'F')) && validEscapes t2
      | _ => false
    else validEscapes t

/-- Go `url.getScheme(rawURL)`: `none` for the error `missing protocol scheme`,
otherwise the scheme (empty when there is none) and the rest. -/
def getSchemeFrom (rawURL : List Char) : Nat → List Char → Option (List Char × List Char)
  | _, [] => some ([], rawURL)
  | i, c :: t =>
    if c.isAlpha then getSchemeFrom rawURL (i + 1) t
    else if c.isDigit ∨ c = '+' ∨ c = '-' ∨ c = '.' then
      if i = 0 then some ([], rawURL) else getSchemeFrom rawURL (i + 1) t
    else if c = ':' then
      if i = 0 then none else some (rawURL.take i, t)
    else some ([], rawURL)

/-- Go `url.validUserinfo`. -/
def validUserinfo (s : List Char) : Bool :=
  s.all (fun r => r.isAlpha || r.isDigit ||
    "-._:~!$&()*+,;=%@".data.contains r || r = Char.ofNat 39)

/-- Whether Go `url.parseAuthority(authority)` succeeds with an empty host:
the authority is empty, or it is a valid user-info followed by `@` and
nothing. -/
def authorityHostEmpty (authority : List Char) : Bool :=
  if authority.contains '@' then
    authority.getLast? = some '@' &&
      validUserinfo authority.dropLast && validEscapes authority.dropLast
  else authority = []

/-- Whether Go `url.Parse(rawURL)` succeeds with an empty `Scheme` and an empty
`Host`, the condition under which `http.Redirect` rewrites its target. -/
def urlParseRelative (rawURL : List Char) : Bool :=
  let u := rawURL.takeWhile (fun c => c ≠ '#')
  let frag := rawURL.drop (u.length + 1)
  let fragOk := frag = [] || validEscapes frag
  if u.any (fun c => c.toNat < 32 || c.toNat = 127) then false
  else if u = ['*'] then fragOk
  else
    match getSchemeFrom u 0 u with
    | none => false
    | some (scheme, rest0) =>
      if scheme ≠ [] then false
      else
        let rest := rest0.takeWhile (fun c => c ≠ '?')
        if rest.head? ≠ some '/' then
          !(rest.takeWhile (fun c => c ≠ '/')).contains ':' && validEscapes rest && fragOk
        else if ['/', '/'].isPrefixOf rest && !(['/', '/', '/'].isPrefixOf rest) then
          authorityHostEmpty ((rest.drop 2).takeWhile (fun c => c ≠ '/')) &&
            validEscapes ((rest.drop 2).dropWhile (fun c => c ≠ '/')) && fragOk
        else validEscapes rest && fragOk

/-- The target of a redirect up to its query: the part before the first `?`. -/
def beforeQuery (url : String) : String :=
  String.mk (url.data.takeWhile (fun c => c ≠ '?'))

/-- The query of a redirect target: the part from the first `?` on. -/
def fromQuery (url : String) : String :=
  String.mk (url.data.dropWhile (fun c => c ≠ '?'))

/-- The step `clean up but preserve trailing slash` of `http.Redirect`. -/
def cleanKeepTrailingSlash (url : String) : String :=
  let cleaned := path_Clean url
  if strings_HasSuffix url "/" && !strings_HasSuffix cleaned "/" then cleaned ++ "/"
  else cleaned

/-- A hexadecimal digit, lower case. -/
def hexDigit (n : Nat) : Char := "0123456789abcdef".data.getD n '0'

/-- Go `hexEscapeNonASCII(s)`: every byte of a non-ASCII character is written
as `%` and two hexadecimal digits. -/
def hexEscapeNonASCII (s : String) : String :=
  String.mk (s.data.flatMap (fun c =>
    if c.toNat < 128 then [c]
    else (utf8Bytes c).flatMap (fun b => ['%', hexDigit (b / 16), hexDigit (b % 16)])))

/-- The status and the `Location` header of a written redirect. -/
structure Written where
  status : Nat
  location : String
  deriving Repr, DecidableEq

/-- Go `http.Redirect(w, r, url, code)`, with `oldpath` the request's
`URL.Path`: a target that parses without scheme and host is made absolute
against the request's directory, cleaned up to its query with its trailing
slash kept, and the result is written to `Location` with non-ASCII bytes
escaped. -/
def http_Redirect (oldpath url : String) (code : Nat) : Written :=
  let target :=
    if urlParseRelative url.data then
      let old := if oldpath = "" then "/" else oldpath
      let abs := if url.data.head? ≠ some '/' then path_SplitDir old ++ url else url
      cleanKeepTrailingSlash (beforeQuery abs) ++ fromQuery abs
    else url
  ⟨code, hexEscapeNonASCII target⟩

/-- Gin `c.Redirect(code, location)` on a request with the given `URL.Path`:
it panics (`none`) for a code that is neither 201 nor in 300..308 and
otherwise calls `http.Redirect`. -/
def gin_Redirect (requestPath : String) (code : Nat) (location : String) : Option Written :=
  if (code < 300 ∨ code > 308) ∧ code ≠ 201 then none
  else some (http_Redirect requestPath location code)

/-- The redirect a handler's response writes for a request with the given
`URL.Path`; `none` when the response is not a redirect or the call panics. -/
def redirectWritten (requestPath : String) : Response → Option Written
  | Response.redirect code location => gin_Redirect requestPath code location
  | _ => none

/-! ## The basic-auth gate (`BasicAuthMiddleware`) -/

/-- The loop of Go `strings.genSplit` for a non-empty separator: at most `k`
more cuts, each at the first occurrence of `sep`; the rest is the last field. -/
def splitLoop (sep : List Char) : Nat → List Char → List (List Char)
  | 0, s => [s]
  | k + 1, s =>
    match indexOf sep s with
    | none => [s]
    | some m => s.take m :: splitLoop sep k (s.drop (m + sep.length))

/-- Go `strings.SplitN(s, sep, n)` for `n ≥ 0` and a non-empty `sep` (the
source calls it with `":"` and `2`): no field for `n = 0`, otherwise at most
`n` fields, `n` being capped at `len(s) + 1` as in `genSplit`, the last field
holding the unsplit remainder. An empty `sep` (Go then splits into characters)
has no caller here and yields the string whole. -/
def strings_SplitN (s sep : String) (n : Nat) : List String :=
  if n = 0 then []
  else if sep.data = [] then [s]
  else (splitLoop sep.data (min n (s.data.length + 1) - 1) s.data).map String.mk

/-- The fields of `server.options` this layer reads. -/
structure Options where
  EnableBasicAuth : Bool
  Credential : String
  Once : Bool
  MaxConnection : Int
  Timeout : Int
  deriving Repr, DecidableEq

/-- What a middleware does with a request: `next` lets the chain go on (with
the value stored under `gin.AuthUserKey`, if any); `abortWithStatus` answers
with the status code and the `WWW-Authenticate` header and stops the chain. -/
inductive GateResult where
  | next (authUser : Option String)
  | abortWithStatus (code : Nat) (wwwAuthenticate : String)
  deriving Repr, DecidableEq

/-- The alphabet of `base64.StdEncoding`. -/
def base64Alphabet : List Char :=
  "ABCDEFGHIJKLMNOPQRSTUVWXYZabcdefghijklmnopqrstuvwxyz0123456789+/".data

/-- The base64 digit of a 6-bit value. -/
def base64Digit (n : Nat) : Char := base64Alphabet.getD n '='

/-- Go `base64.StdEncoding.EncodeToString` on a list of bytes. -/
def base64Encode : List Nat → List Char
  | [] => []
  | [a] => [base64Digit (a / 4), base64Digit (a % 4 * 16), '=', '=']
  | [a, b] =>
    [base64Digit (a / 4), base64Digit (a % 4 * 16 + b / 16), base64Digit (b % 16 * 4), '=']
  | a :: b :: c :: rest =>
    base64Digit (a / 4) :: base64Digit (a % 4 * 16 + b / 16) ::
      base64Digit (b % 16 * 4 + c / 64) :: base64Digit (c % 64) :: base64Encode rest

/-- Gin `authorizationHeader(user, password)`:
`"Basic " + base64(user + ":" + password)`, the `Authorization` header value a
client sends to present the credentials `user` and `password`. -/
def authorizationHeader (user password : String) : String :=
  "Basic " ++ String.mk (base64Encode ((user ++ ":" ++ password).data.flatMap utf8Bytes))

/-- Gin `authPair`. -/
structure authPair where
  value : String
  user : String
  deriving Repr, DecidableEq

/-- Gin `processAccounts(accounts)`: the header value expected for each
account; it panics (here `Except.error` with the panic message) on an empty
account list and on an empty user name. -/
def processAccounts (accounts : List (String × String)) : Except String (List authPair) :=
  if accounts.length = 0 then Except.error "Empty list of authorized credentials"
  else accounts.mapM (fun a =>
    if a.1 = "" then Except.error "User can not be empty"
    else Except.ok ⟨authorizationHeader a.1 a.2, a.1⟩)

/-- Gin `authPairs.searchCredential(authValue)`. -/
def searchCredential (pairs : List authPair) (authValue : String) : Option String :=
  if authValue = "" then none
  else (pairs.find? (fun q => q.value = authValue)).map (fun q => q.user)

/-- Gin `gin.BasicAuth(accounts)`, the library function the source calls: the
returned middleware looks the request's `Authorization` header up among the
expected values, answers 401 with the realm challenge when it is not found and
otherwise stores the user and lets the chain go on. The middleware's argument
is the request's `Authorization` header (`""` when absent). -/
def gin_BasicAuth (accounts : List (String × String)) : Except String (String → GateResult) :=
  match processAccounts accounts with
  | Except.error e => Except.error e
  | Except.ok pairs => Except.ok (fun authorization =>
      match searchCredential pairs authorization with
      | none => GateResult.abortWithStatus 401 "Basic realm=\"Authorization Required\""
      | some user => GateResult.next (some user))

/-- The method `GinHandlers.BasicAuthMiddleware()`: `Except.error` is a panic during
construction, `Except.ok gate` the returned middleware as a function of the
request's `Authorization` header. The warning the source logs for a malformed
credential does not affect the result and is left out. -/
def BasicAuthMiddleware (options : Options) : Except String (String → GateResult) :=
  if !options.EnableBasicAuth then
    Except.ok (fun _ => GateResult.next none)
  else
    match strings_SplitN options.Credential ":" 2 with
    | [user, pass] => gin_BasicAuth [(user, pass)]
    | _ => Except.ok (fun _ => GateResult.next none)

/-- Run a gate that may have failed to build: `none` when construction panicked. -/
def runGate (g : Except String (String → GateResult)) (authorization : String) :
    Option GateResult :=
  match g with
  | Except.error _ => none
  | Except.ok gate => some (gate authorization)

/-! ## The WebSocket handler and the mount's lifecycle -/

/-- Modelled from the spec: the type `counter` with `newCounter` and `count`
is declared outside the files at hand. The spec's ConnectionCounter holds the
current active count and an idle timeout duration; the maximum is read from
the options. -/
structure counter where
  connections : Int
  duration : Int
  deriving Repr, DecidableEq

/-- Modelled from the spec: `newCounter(duration)`, a counter with no active
connection. -/
def newCounter (duration : Int) : counter := ⟨0, duration⟩

/-- Modelled from the spec: `counter.count()`, the current active count. -/
def counter.count (c : counter) : Int := c.connections

/-- The struct `GinHandlers`: the server's options, the counter, and the context
`ctx` with its `cancel` function, held as the one fact they carry: whether
`ctx` has been cancelled. -/
structure GinHandlers where
  options : Options
  counter : counter
  ctxCancelled : Bool
  deriving Repr, DecidableEq

/-- The method `Server.NewGinHandlers(ctx)`: `context.WithCancel(ctx)` gives a
context that is cancelled from the start exactly when the parent is. -/
def NewGinHandlers (options : Options) (parentCancelled : Bool) : GinHandlers :=
  ⟨options, newCounter (options.Timeout * 1000000000), parentCancelled⟩

/-- The call `h.cancel()`: Go's `CancelFunc` cancels the context; calls after the first do
nothing. -/
def GinHandlers.cancel (h : GinHandlers) : GinHandlers :=
  { h with ctxCancelled := true }

/-- The method `GinHandlers.Cancel()`. -/
def GinHandlers.Cancel (h : GinHandlers) : GinHandlers := h.cancel

/-- The method `GinHandlers.Counter()`. -/
def GinHandlers.Counter (h : GinHandlers) : Gotty.counter := h.counter

/-- The method `GinHandlers.Context()`: whether the mount's context is cancelled. -/
def GinHandlers.Context (h : GinHandlers) : Bool := h.ctxCancelled

/-- The part of `GinHandlers.WebSocket` that runs once `processWSConn` has
returned, with its error if any: the close reason is built and logged together
with `h.counter.count()`, and the context is cancelled when `Once` is set.
The result is the handlers' state and the logged line's reason and count. -/
def GinHandlers.afterProcess (h : GinHandlers) (err : Option String) :
    GinHandlers × String × Int :=
  let closeReason := match err with
    | none => "normal close"
    | some e => "error: " ++ e
  let logged := (closeReason, h.counter.count)
  if h.options.Once then (h.cancel, logged) else (h, logged)

/-- The method `GinHandlers.WebSocket(c)`. `upgrade` is the outcome of
`h.server.upgrader.Upgrade` (`some e` its error) and `processErr` the error, if
any, that `h.server.processWSConn(h.ctx, conn)` returns; `processWSConn`
receives the context and the connection only, so it reaches neither the
counter nor `cancel`. The result is the handlers' state after the handler
returns. -/
def GinHandlers.WebSocket (h : GinHandlers) (upgrade : Option String)
    (processErr : Option String) : GinHandlers :=
  match upgrade with
  | some _ => h
  | none => (h.afterProcess processErr).1

/-- An observable step of the WebSocket handler on a mount. -/
inductive WsEvent where
  | upgradeFailed (err : String)
  | upgraded
  | closed (err : Option String)
  deriving Repr, DecidableEq

/-- A mount under the WebSocket handler, with the two tallies the counter
invariant speaks of. -/
structure MountState where
  handlers : GinHandlers
  upgrades : Nat
  closes : Nat
  deriving Repr, DecidableEq

/-- One step of the handler: a failed upgrade returns at once; a successful
upgrade only registers the deferred `conn.Close()`; the return of
`processWSConn` runs the rest of the handler. -/
def MountState.step (s : MountState) : WsEvent → MountState
  | WsEvent.upgradeFailed _ => s
  | WsEvent.upgraded => { s with upgrades := s.upgrades + 1 }
  | WsEvent.closed err =>
    { s with handlers := (s.handlers.afterProcess err).1, closes := s.closes + 1 }

/-- The mount's state after a sequence of steps. -/
def MountState.run (s : MountState) (evs : List WsEvent) : MountState :=
  evs.foldl MountState.step s

/-- A freshly created mount. -/
def MountState.init (options : Options) (parentCancelled : Bool) : MountState :=
  ⟨NewGinHandlers options parentCancelled, 0, 0⟩

/-- A sequence of steps a mount can go through: no connection closes before it
was upgraded. -/
def wellFormed : Nat → List WsEvent → Bool
  | _, [] => true
  | active, WsEvent.upgradeFailed _ :: evs => wellFormed active evs
  | active, WsEvent.upgraded :: evs => wellFormed (active + 1) evs
  | 0, WsEvent.closed _ :: _ => false
  | active + 1, WsEvent.closed _ :: evs => wellFormed active evs

/-- Whether the gate lets the request go on to the next handler. -/
def GateResult.proceeds : GateResult → Bool
  | GateResult.next _ => true
  | GateResult.abortWithStatus _ _ => false

/-! ## Facts about the string functions -/

theorem hasSuffix_iff (s t : String) :
    strings_HasSuffix s t = true ↔ t.data <:+ s.data := by
  unfold strings_HasSuffix
  simp only [Bool.and_eq_true, decide_eq_true_eq]
  constructor
  · rintro ⟨_, h⟩
    have hs := List.take_append_drop (s.data.length - t.data.length) s.data
    rw [h] at hs
    exact ⟨s.data.take (s.data.length - t.data.length), hs⟩
  · rintro ⟨a, h⟩
    have hl : s.data.length = a.length + t.data.length := by rw [← h, List.length_append]
    refine ⟨by omega, ?_⟩
    rw [← h, List.length_append, Nat.add_sub_cancel, List.drop_left]

theorem hasSuffix_append (a t : String) : strings_HasSuffix (a ++ t) t = true := by
  rw [hasSuffix_iff]
  exact ⟨a.data, by simp⟩

theorem indexOf_isSome_of_prefix (sub s : List Char) (h : sub <+: s) :
    indexOf sub s = some 0 := by
  cases s with
  | nil =>
    have : sub = [] := List.prefix_nil.mp h
    simp [indexOf, this]
  | cons c t =>
    have : sub.isPrefixOf (c :: t) = true := List.isPrefixOf_iff_prefix.mpr h
    simp [indexOf, this]

theorem indexOf_isSome_iff (sub s : List Char) :
    (indexOf sub s).isSome = true ↔ sub <:+: s := by
  induction s with
  | nil =>
    by_cases h : sub = [] <;> simp [indexOf, h]
  | cons c t ih =>
    by_cases hp : sub.isPrefixOf (c :: t) = true
    · have hpre : sub <+: c :: t := List.isPrefixOf_iff_prefix.mp hp
      simp only [indexOf, hp, if_true, Option.isSome_some, true_iff]
      exact hpre.isInfix
    · have hnp : ¬ sub <+: c :: t := fun h => hp (List.isPrefixOf_iff_prefix.mpr h)
      simp only [indexOf, hp, if_false, Bool.false_eq_true, Option.isSome_map']
      rw [ih, List.infix_cons_iff]
      constructor
      · exact fun h => Or.inr h
      · rintro (h | h)
        · exact absurd h hnp
        · exact h

theorem contains_iff (s sub : String) :
    strings_Contains s sub = true ↔ sub.data <:+: s.data := by
  unfold strings_Contains strings_Index
  exact indexOf_isSome_iff _ _

theorem contains_middle (a sub b : String) : strings_Contains (a ++ sub ++ b) sub = true := by
  rw [contains_iff]
  exact ⟨a.data, b.data, by simp⟩

theorem not_hasSuffix_of_not_suffix (s t : String) (h : ¬ t.data <:+ s.data) :
    strings_HasSuffix s t = false := by
  cases hb : strings_HasSuffix s t with
  | false => rfl
  | true => exact absurd ((hasSuffix_iff s t).mp hb) h

theorem not_contains_of_not_infix (s t : String) (h : ¬ t.data <:+: s.data) :
    strings_Contains s t = false := by
  cases hb : strings_Contains s t with
  | false => rfl
  | true => exact absurd ((contains_iff s t).mp hb) h

theorem ne_of_not_suffix (s t : String) (h : ¬ t.data <:+ s.data) : s ≠ t := by
  intro e
  exact h (e ▸ List.suffix_refl _)

/-! ## The static-asset rewriter -/

/-- C9: for every request whose URL path is `/favicon.png` or ends with
`/favicon.png`, whatever the factory argument and whatever the wildcard
parameter `filepath`, the static handler serves exactly `/favicon.png`. -/
theorem staticFiles_favicon (pfx urlPath filepath : String)
    (h : urlPath = "/favicon.png" ∨ ∃ dir : String, urlPath = dir ++ "/favicon.png") :
    StaticFiles pfx ⟨urlPath, filepath⟩ = "/favicon.png" := by
  have hs : strings_HasSuffix urlPath "/favicon.png" = true := by
    rcases h with h | ⟨dir, h⟩
    · subst h; decide
    · subst h; exact hasSuffix_append dir "/favicon.png"
  simp [StaticFiles, hs]

theorem staticFiles_favicon_witness :
    ("/a/b/terminal/favicon.png" = "/favicon.png" ∨
      ∃ dir : String, "/a/b/terminal/favicon.png" = dir ++ "/favicon.png") ∧
    StaticFiles "" ⟨"/a/b/terminal/favicon.png", "/x"⟩ = "/favicon.png" :=
  ⟨Or.inr ⟨"/a/b/terminal", by decide⟩,
   staticFiles_favicon "" "/a/b/terminal/favicon.png" "/x" (Or.inr ⟨"/a/b/terminal", by decide⟩)⟩

/-- C1, as the code has it: for every mount prefix `P` and remainder `rest`
such that the URL path `P + "/js/" + rest` does not end with `/favicon.png`,
the static handler, given that URL path and the wildcard parameter
`"/" + rest`, serves exactly `"/js/" + rest`. -/
theorem staticFiles_js (pfx P rest : String)
    (h : ¬ "/favicon.png".data <:+ (P ++ "/js/" ++ rest).data) :
    StaticFiles pfx ⟨P ++ "/js/" ++ rest, "/" ++ rest⟩ = "/js/" ++ rest := by
  have h1 := ne_of_not_suffix _ _ h
  have h2 := not_hasSuffix_of_not_suffix _ _ h
  have h3 := contains_middle P "/js/" rest
  have h4 : "/" ++ rest ≠ "" := by
    intro e
    have := congrArg String.data e
    simp at this
  have h5 : "/js" ++ ("/" ++ rest) = "/js/" ++ rest := by
    apply String.ext
    simp
  simp [StaticFiles, h1, h2, h3, h4, h5]

theorem staticFiles_js_witness :
    (¬ "/favicon.png".data <:+ ("/terminal" ++ "/js/" ++ "gotty-bundle.js").data) ∧
    StaticFiles "" ⟨"/terminal" ++ "/js/" ++ "gotty-bundle.js", "/" ++ "gotty-bundle.js"⟩
      = "/js/" ++ "gotty-bundle.js" :=
  ⟨by decide, staticFiles_js "" "/terminal" "gotty-bundle.js" (by decide)⟩

/-- C1 as stated fails: under the route `/terminal/js/*filepath` the request
`/terminal/js/favicon.png` is served `/favicon.png`, not `/js/favicon.png`. -/
theorem staticFiles_js_counterexample :
    StaticFiles "" ⟨"/terminal" ++ "/js/" ++ "favicon.png", "/" ++ "favicon.png"⟩
        = "/favicon.png" ∧
    StaticFiles "" ⟨"/terminal" ++ "/js/" ++ "favicon.png", "/" ++ "favicon.png"⟩
        ≠ "/js/" ++ "favicon.png" := by
  decide

/-- C2, as the code has it: for every mount prefix `P` and remainder `rest`
such that the URL path `P + "/css/" + rest` neither ends with `/favicon.png`
nor contains `/js/`, the static handler, given that URL path and the wildcard
parameter `"/" + rest`, serves exactly `"/css/" + rest`. -/
theorem staticFiles_css (pfx P rest : String)
    (hfav : ¬ "/favicon.png".data <:+ (P ++ "/css/" ++ rest).data)
    (hjs : ¬ "/js/".data <:+: (P ++ "/css/" ++ rest).data) :
    StaticFiles pfx ⟨P ++ "/css/" ++ rest, "/" ++ rest⟩ = "/css/" ++ rest := by
  have h1 := ne_of_not_suffix _ _ hfav
  have h2 := not_hasSuffix_of_not_suffix _ _ hfav
  have h3 := not_contains_of_not_infix _ _ hjs
  have h3c := contains_middle P "/css/" rest
  have h4 : "/" ++ rest ≠ "" := by
    intro e
    have := congrArg String.data e
    simp at this
  have h5 : "/css" ++ ("/" ++ rest) = "/css/" ++ rest := by
    apply String.ext
    simp
  simp [StaticFiles, h1, h2, h3, h3c, h4, h5]

theorem staticFiles_css_witness :
    (¬ "/favicon.png".data <:+ ("/terminal" ++ "/css/" ++ "index.css").data) ∧
    (¬ "/js/".data <:+: ("/terminal" ++ "/css/" ++ "index.css").data) ∧
    StaticFiles "" ⟨"/terminal" ++ "/css/" ++ "index.css", "/" ++ "index.css"⟩
      = "/css/" ++ "index.css" :=
  ⟨by decide, by decide,
   staticFiles_css "" "/terminal" "index.css" (by decide) (by decide)⟩

/-- C2 as stated fails: under the route `/terminal/css/*filepath` the request
`/terminal/css/favicon.png` is served `/favicon.png`, and the request
`/terminal/css/js/x.css`, whose remainder contains `/js/`, is served
`/js/js/x.css`; neither is the `/css/` path the claim gives. -/
theorem staticFiles_css_counterexample :
    (StaticFiles "" ⟨"/terminal" ++ "/css/" ++ "favicon.png", "/" ++ "favicon.png"⟩
        = "/favicon.png" ∧
      StaticFiles "" ⟨"/terminal" ++ "/css/" ++ "favicon.png", "/" ++ "favicon.png"⟩
        ≠ "/css/" ++ "favicon.png") ∧
    (StaticFiles "" ⟨"/terminal" ++ "/css/" ++ "js/x.css", "/" ++ "js/x.css"⟩
        = "/js/js/x.css" ∧
      StaticFiles "" ⟨"/terminal" ++ "/css/" ++ "js/x.css", "/" ++ "js/x.css"⟩
        ≠ "/css/" ++ "js/x.css") := by
  decide

/-! ## Redirects -/

/-- C7: for every mount prefix `P`, the handler `RegisterRoutes` installs for
the group's route `""`, given a GET whose URL path is `P`, answers with a
redirect of status 301 whose target is exactly `P + "/"`. -/
theorem registerRoutes_bare_redirect (P filepath : String) :
    ∃ handler, handlerFor RegisterRoutes "GET" "" = some handler ∧
      handler ⟨P, filepath⟩ = Response.redirect 301 (P ++ "/") :=
  ⟨fun c => Response.redirect 301 (c.urlPath ++ "/"), rfl, rfl⟩

theorem matchRoute_css_js (r : String) : matchRoute "/css/*filepath" ("/js/" ++ r) = none := by
  have hi : indexOf ['*'] "/css/*filepath".data = some 5 := by decide
  simp [matchRoute, hi, List.isPrefixOf]

theorem matchRoute_css_css (r : String) :
    matchRoute "/css/*filepath" ("/css/" ++ r) = some ("/" ++ r) := by
  have hi : indexOf ['*'] "/css/*filepath".data = some 5 := by decide
  simp only [matchRoute, hi]
  have hp : (List.take 5 "/css/*filepath".data).isPrefixOf ("/css/" ++ r).data = true := by
    simp [List.isPrefixOf]
  rw [if_pos hp]
  congr 1

theorem matchRoute_js_js (r : String) :
    matchRoute "/js/*filepath" ("/js/" ++ r) = some ("/" ++ r) := by
  have hi : indexOf ['*'] "/js/*filepath".data = some 4 := by decide
  simp only [matchRoute, hi]
  have hp : (List.take 4 "/js/*filepath".data).isPrefixOf ("/js/" ++ r).data = true := by
    simp [List.isPrefixOf]
  rw [if_pos hp]
  congr 1

/-- The router holding the routes of `RegisterGlobalRoutes` runs, for a GET of
a path that one of the five routes matches, a handler that calls
`c.Redirect(302, groupPrefix + path)`. -/
theorem serve_registerGlobalRoutes (P q : String)
    (h : (∃ r : String, q = "/js/" ++ r) ∨ (∃ r : String, q = "/css/" ++ r) ∨
      q = "/auth_token.js" ∨ q = "/config.js" ∨ q = "/favicon.png") :
    serve (RegisterGlobalRoutes P) "GET" q = some (Response.redirect 302 (P ++ q)) := by
  rcases h with ⟨r, h⟩ | ⟨r, h⟩ | h | h | h
  · subst h
    simp [serve, RegisterGlobalRoutes, matchRoute_css_js, matchRoute_js_js]
  · subst h
    simp [serve, RegisterGlobalRoutes, matchRoute_css_css]
  · subst h
    have h1 : matchRoute "/css/*filepath" "/auth_token.js" = none := by decide
    have h2 : matchRoute "/js/*filepath" "/auth_token.js" = none := by decide
    have h3 : matchRoute "/auth_token.js" "/auth_token.js" = some "" := by decide
    simp [serve, RegisterGlobalRoutes, h1, h2, h3]
  · subst h
    have h1 : matchRoute "/css/*filepath" "/config.js" = none := by decide
    have h2 : matchRoute "/js/*filepath" "/config.js" = none := by decide
    have h3 : matchRoute "/auth_token.js" "/config.js" = none := by decide
    have h4 : matchRoute "/config.js" "/config.js" = some "" := by decide
    simp [serve, RegisterGlobalRoutes, h1, h2, h3, h4]
  · subst h
    have h1 : matchRoute "/css/*filepath" "/favicon.png" = none := by decide
    have h2 : matchRoute "/js/*filepath" "/favicon.png" = none := by decide
    have h3 : matchRoute "/auth_token.js" "/favicon.png" = none := by decide
    have h4 : matchRoute "/config.js" "/favicon.png" = none := by decide
    have h5 : matchRoute "/favicon.png" "/favicon.png" = some "" := by decide
    simp [serve, RegisterGlobalRoutes, h1, h2, h3, h4, h5]

theorem splitSlash_of_no_slash (seg : List Char) (h : '/' ∉ seg) : splitSlash seg = [seg] := by
  induction seg with
  | nil => rfl
  | cons c t ih =>
    have hc : ¬ c = '/' := fun e => h (e ▸ List.mem_cons_self _ _)
    have ht : '/' ∉ t := fun m => h (List.mem_cons_of_mem _ m)
    simp [splitSlash, hc, ih ht]

theorem splitSlash_append_slash (seg rest : List Char) (h : '/' ∉ seg) :
    splitSlash (seg ++ '/' :: rest) = seg :: splitSlash rest := by
  induction seg with
  | nil => simp [splitSlash]
  | cons c t ih =>
    have hc : ¬ c = '/' := fun e => h (e ▸ List.mem_cons_self _ _)
    have ht : '/' ∉ t := fun m => h (List.mem_cons_of_mem _ m)
    simp [splitSlash, hc, ih ht]

theorem splitSlash_joinSlash (segs : List (List Char)) (hne : segs ≠ [])
    (h : ∀ seg ∈ segs, '/' ∉ seg) : splitSlash (joinSlash segs) = segs := by
  induction segs with
  | nil => exact absurd rfl hne
  | cons seg rest ih =>
    have hseg : '/' ∉ seg := h seg (List.mem_cons_self _ _)
    cases rest with
    | nil => simpa [joinSlash] using splitSlash_of_no_slash seg hseg
    | cons seg2 rest2 =>
      have hrest : ∀ x ∈ seg2 :: rest2, '/' ∉ x := fun x m => h x (List.mem_cons_of_mem _ m)
      have := ih (List.cons_ne_nil _ _) hrest
      simp only [joinSlash]
      rw [splitSlash_append_slash seg _ hseg, this]

theorem foldl_cleanStep_ordinary (rooted : Bool) (segs stack : List (List Char))
    (h : ∀ seg ∈ segs, seg ≠ [] ∧ seg ≠ ['.'] ∧ seg ≠ ['.', '.']) :
    segs.foldl (cleanStep rooted) stack = segs.reverse ++ stack := by
  induction segs generalizing stack with
  | nil => rfl
  | cons seg rest ih =>
    obtain ⟨h1, h2, h3⟩ := h seg (List.mem_cons_self _ _)
    have hstep : cleanStep rooted stack seg = seg :: stack := by
      simp [cleanStep, h1, h2, h3]
    have hrest : ∀ x ∈ rest, x ≠ [] ∧ x ≠ ['.'] ∧ x ≠ ['.', '.'] :=
      fun x m => h x (List.mem_cons_of_mem _ m)
    simp [List.foldl, hstep, ih _ hrest]

/-- An absolute path made of ordinary elements (not empty, without a slash,
neither `.` nor `..`) joined by single slashes is left as it is by
`path.Clean` and by the clean-up step of `http.Redirect`. -/
theorem cleanKeepTrailingSlash_of_ordinary (segs : List (List Char)) (hne : segs ≠ [])
    (h : ∀ seg ∈ segs, '/' ∉ seg ∧ seg ≠ [] ∧ seg ≠ ['.'] ∧ seg ≠ ['.', '.']) :
    path_Clean (String.mk ('/' :: joinSlash segs)) = String.mk ('/' :: joinSlash segs) ∧
    cleanKeepTrailingSlash (String.mk ('/' :: joinSlash segs))
      = String.mk ('/' :: joinSlash segs) := by
  have hsplit : splitSlash ('/' :: joinSlash segs) = [] :: segs := by
    have := splitSlash_joinSlash segs hne (fun seg m => (h seg m).1)
    simp [splitSlash, this]
  have hfold : (([] : List Char) :: segs).foldl (cleanStep true) [] = segs.reverse := by
    have h0 : cleanStep true [] [] = [] := by simp [cleanStep]
    have := foldl_cleanStep_ordinary true segs [] (fun seg m => (h seg m).2)
    simp [List.foldl, h0, this]
  have hclean : path_Clean (String.mk ('/' :: joinSlash segs))
      = String.mk ('/' :: joinSlash segs) := by
    simp [path_Clean, hsplit, hfold]
  refine ⟨hclean, ?_⟩
  unfold cleanKeepTrailingSlash
  simp only [hclean]
  cases strings_HasSuffix (String.mk ('/' :: joinSlash segs)) "/" <;> rfl

theorem beforeQuery_append_fromQuery (url : String) :
    beforeQuery url ++ fromQuery url = url := by
  apply String.ext
  simp [beforeQuery, fromQuery, List.takeWhile_append_dropWhile]

/-- When the target starts with a slash and cleaning leaves its path as it is,
`http.Redirect` writes the target itself, non-ASCII bytes escaped, whether or
not the target parses as a reference without scheme and host. -/
theorem http_Redirect_clean (oldpath url : String) (code : Nat)
    (hslash : url.data.head? = some '/')
    (hclean : cleanKeepTrailingSlash (beforeQuery url) = beforeQuery url) :
    http_Redirect oldpath url code = ⟨code, hexEscapeNonASCII url⟩ := by
  unfold http_Redirect
  by_cases hp : urlParseRelative url.data = true
  · simp [hp, hslash, hclean, beforeQuery_append_fromQuery]
  · simp [hp]

/-- The redirect of the bare mount path as written: when `P + "/"` starts with a
slash and is left as it is by the clean-up of `http.Redirect`, the response
has status 301 and the `Location` header `P + "/"`, non-ASCII bytes escaped. -/
theorem registerRoutes_bare_location (P : String)
    (hslash : (P ++ "/").data.head? = some '/')
    (hclean : cleanKeepTrailingSlash (beforeQuery (P ++ "/")) = beforeQuery (P ++ "/")) :
    redirectWritten P (Response.redirect 301 (P ++ "/"))
      = some ⟨301, hexEscapeNonASCII (P ++ "/")⟩ := by
  show gin_Redirect P 301 (P ++ "/") = some ⟨301, hexEscapeNonASCII (P ++ "/")⟩
  unfold gin_Redirect
  rw [if_neg (by omega), http_Redirect_clean P (P ++ "/") 301 hslash hclean]

/-- C8, as the code has it: for every group prefix `P` and every root request
path `q` that one of the global-fallback routes matches (`/js/*`, `/css/*`,
`/auth_token.js`, `/config.js`, `/favicon.png`), the handler calls
`c.Redirect(302, P + q)`; when `P + q` starts with a slash and its path (the
part before any `?`) is left as it is by the clean-up of `http.Redirect` (as
every absolute path of ordinary elements is, `cleanKeepTrailingSlash_of_ordinary`),
the response written has status 302 and the `Location` header exactly `P + q`,
its non-ASCII bytes percent-escaped. -/
theorem registerGlobalRoutes_location (P q : String)
    (h : (∃ r : String, q = "/js/" ++ r) ∨ (∃ r : String, q = "/css/" ++ r) ∨
      q = "/auth_token.js" ∨ q = "/config.js" ∨ q = "/favicon.png")
    (hslash : (P ++ q).data.head? = some '/')
    (hclean : cleanKeepTrailingSlash (beforeQuery (P ++ q)) = beforeQuery (P ++ q)) :
    serve (RegisterGlobalRoutes P) "GET" q = some (Response.redirect 302 (P ++ q)) ∧
    (serve (RegisterGlobalRoutes P) "GET" q).bind (redirectWritten q)
      = some ⟨302, hexEscapeNonASCII (P ++ q)⟩ := by
  have hserve := serve_registerGlobalRoutes P q h
  refine ⟨hserve, ?_⟩
  rw [hserve]
  show gin_Redirect q 302 (P ++ q) = some ⟨302, hexEscapeNonASCII (P ++ q)⟩
  unfold gin_Redirect
  rw [if_neg (by omega), http_Redirect_clean q (P ++ q) 302 hslash hclean]

theorem registerGlobalRoutes_location_witness :
    ((∃ r : String, "/js/app.js" = "/js/" ++ r) ∨ (∃ r : String, "/js/app.js" = "/css/" ++ r) ∨
      "/js/app.js" = "/auth_token.js" ∨ "/js/app.js" = "/config.js" ∨
      "/js/app.js" = "/favicon.png") ∧
    ("/terminal" ++ "/js/app.js").data.head? = some '/' ∧
    cleanKeepTrailingSlash (beforeQuery ("/terminal" ++ "/js/app.js"))
      = beforeQuery ("/terminal" ++ "/js/app.js") ∧
    (serve (RegisterGlobalRoutes "/terminal") "GET" "/js/app.js"
        = some (Response.redirect 302 ("/terminal" ++ "/js/app.js")) ∧
      (serve (RegisterGlobalRoutes "/terminal") "GET" "/js/app.js").bind
          (redirectWritten "/js/app.js")
        = some ⟨302, hexEscapeNonASCII ("/terminal" ++ "/js/app.js")⟩) ∧
    hexEscapeNonASCII ("/terminal" ++ "/js/app.js") = "/terminal/js/app.js" :=
  ⟨Or.inl ⟨"app.js", by decide⟩, by decide, by decide,
   registerGlobalRoutes_location "/terminal" "/js/app.js" (Or.inl ⟨"app.js", by decide⟩)
     (by decide) (by decide),
   by decide⟩

/-- C8 as stated fails: the root request `/js//a.js`, which the route
`/js/*filepath` matches, is answered for the prefix `/terminal` with
`Location: /terminal/js/a.js`, not `/terminal/js//a.js`; for the prefix
`/terminal/` the request `/js/app.js` is answered with `/terminal/js/app.js`,
not `/terminal//js/app.js`; for the prefix `terminal` it is answered with
`/js/terminal/js/app.js`, not `terminal/js/app.js`. -/
theorem registerGlobalRoutes_location_counterexample :
    ((serve (RegisterGlobalRoutes "/terminal") "GET" "/js//a.js").bind
          (redirectWritten "/js//a.js") = some ⟨302, "/terminal/js/a.js"⟩ ∧
      "/terminal/js/a.js" ≠ "/terminal" ++ "/js//a.js") ∧
    ((serve (RegisterGlobalRoutes "/terminal/") "GET" "/js/app.js").bind
          (redirectWritten "/js/app.js") = some ⟨302, "/terminal/js/app.js"⟩ ∧
      "/terminal/js/app.js" ≠ "/terminal/" ++ "/js/app.js") ∧
    ((serve (RegisterGlobalRoutes "terminal") "GET" "/js/app.js").bind
          (redirectWritten "/js/app.js") = some ⟨302, "/js/terminal/js/app.js"⟩ ∧
      "/js/terminal/js/app.js" ≠ "terminal" ++ "/js/app.js") := by
  decide

/-! ## The basic-auth gate -/

theorem indexOf_single_eq_none (c : Char) (s : List Char) (h : c ∉ s) :
    indexOf [c] s = none := by
  induction s with
  | nil => simp [indexOf]
  | cons x t ih =>
    have hx : ¬ c = x := fun e => h (e ▸ List.mem_cons_self _ _)
    have ht : c ∉ t := fun m => h (List.mem_cons_of_mem _ m)
    simp [indexOf, List.isPrefixOf, hx, ih ht]

theorem indexOf_single_append (c : Char) (a b : List Char) (h : c ∉ a) :
    indexOf [c] (a ++ c :: b) = some a.length := by
  induction a with
  | nil => simp [indexOf, List.isPrefixOf]
  | cons x t ih =>
    have hx : ¬ c = x := fun e => h (e ▸ List.mem_cons_self _ _)
    have ht : c ∉ t := fun m => h (List.mem_cons_of_mem _ m)
    simp [indexOf, List.isPrefixOf, hx, ih ht]

theorem splitN_colon_none (cred : String) (h : ':' ∉ cred.data) :
    strings_SplitN cred ":" 2 = [cred] := by
  have hi := indexOf_single_eq_none ':' cred.data h
  have hsep : ":".data = [':'] := rfl
  unfold strings_SplitN
  rw [if_neg (by decide), if_neg (by simp [hsep]), hsep]
  cases hk : min 2 (cred.data.length + 1) - 1 with
  | zero => simp [splitLoop]
  | succ k => simp [splitLoop, hi]

theorem splitN_colon_some (u p : String) (h : ':' ∉ u.data) :
    strings_SplitN (u ++ ":" ++ p) ":" 2 = [u, p] := by
  have hsep : ":".data = [':'] := rfl
  have hd : (u ++ ":" ++ p).data = u.data ++ ':' :: p.data := by simp [hsep]
  have hi := indexOf_single_append ':' u.data p.data h
  unfold strings_SplitN
  rw [if_neg (by decide), if_neg (by simp [hsep]), hsep, hd]
  have hk : min 2 ((u.data ++ ':' :: p.data).length + 1) - 1 = 1 := by
    simp only [List.length_append, List.length_cons]
    omega
  rw [hk]
  have htake : List.take u.data.length (u.data ++ ':' :: p.data) = u.data := by simp
  have hdrop : List.drop (u.data.length + 1) (u.data ++ ':' :: p.data) = p.data := by
    have e : u.data ++ ':' :: p.data = (u.data ++ [':']) ++ p.data := by simp
    rw [e]
    exact List.drop_left' (by simp)
  simp only [splitLoop, hi, List.length_singleton, htake, hdrop, List.map]

theorem mem_of_indexOf_single (c : Char) (s : List Char) (h : c ∈ s) :
    ∃ a b, s = a ++ c :: b ∧ c ∉ a := by
  induction s with
  | nil => exact absurd h (List.not_mem_nil _)
  | cons x t ih =>
    by_cases hx : c = x
    · exact ⟨[], t, by simp [hx], List.not_mem_nil _⟩
    · have ht : c ∈ t := by
        rcases List.mem_cons.mp h with e | m
        · exact absurd e hx
        · exact m
      obtain ⟨a, b, e, hn⟩ := ih ht
      refine ⟨x :: a, b, by simp [e], ?_⟩
      intro m
      rcases List.mem_cons.mp m with e2 | m2
      · exact hx e2
      · exact hn m2

/-- The credential parser yields other than two fields exactly when the
credential holds no colon. -/
theorem splitN_length_ne_two_iff (cred : String) :
    (strings_SplitN cred ":" 2).length ≠ 2 ↔ ':' ∉ cred.data := by
  constructor
  · intro hlen hmem
    obtain ⟨a, b, e, hn⟩ := mem_of_indexOf_single ':' cred.data hmem
    have hc : cred = String.mk a ++ ":" ++ String.mk b := by
      apply String.ext
      have hsep : ":".data = [':'] := rfl
      simp [e, hsep]
    have := splitN_colon_some (String.mk a) (String.mk b) hn
    rw [← hc] at this
    exact hlen (by rw [this]; rfl)
  · intro h
    rw [splitN_colon_none cred h]
    simp

theorem authorizationHeader_ne_empty (u p : String) : authorizationHeader u p ≠ "" := by
  intro e
  have := congrArg String.length e
  simp [authorizationHeader] at this
  exact absurd this.1 (by decide)

/-- C4: for every configured credential string that the parser does not split
into exactly two fields (equivalently, by `splitN_length_ne_two_iff`, one with
no colon), `BasicAuthMiddleware` does not panic and returns a gate that lets
every request go on to the next handler; with basic auth enabled or not. -/
theorem basicAuth_malformed_passthrough (options : Options)
    (hbad : (strings_SplitN options.Credential ":" 2).length ≠ 2) :
    ∃ gate, BasicAuthMiddleware options = Except.ok gate ∧
      ∀ authorization : String, gate authorization = GateResult.next none := by
  have hnone : ':' ∉ options.Credential.data := (splitN_length_ne_two_iff _).mp hbad
  refine ⟨fun _ => GateResult.next none, ?_, fun _ => rfl⟩
  unfold BasicAuthMiddleware
  rw [splitN_colon_none _ hnone]
  cases options.EnableBasicAuth <;> rfl

theorem basicAuth_malformed_passthrough_witness :
    (strings_SplitN "admin" ":" 2).length ≠ 2 ∧
    ∃ gate, BasicAuthMiddleware ⟨true, "admin", false, 0, 0⟩ = Except.ok gate ∧
      ∀ authorization : String, gate authorization = GateResult.next none :=
  ⟨by decide, basicAuth_malformed_passthrough ⟨true, "admin", false, 0, 0⟩ (by decide)⟩

/-- The gate that is built for a non-empty user name: with basic auth enabled
and a credential string `u + ":" + p` whose user name `u` holds no colon and
is not empty, `BasicAuthMiddleware` returns a gate that lets a request proceed,
as user `u`, exactly when the request's `Authorization` header equals, byte
for byte, `"Basic " + base64(u + ":" + p)`, and otherwise answers 401 with the
realm challenge; the gate is a function of the request's header alone. -/
theorem basicAuth_gate (options : Options) (u p : String)
    (hen : options.EnableBasicAuth = true)
    (hcred : options.Credential = u ++ ":" ++ p)
    (hcolon : ':' ∉ u.data)
    (hne : u ≠ "") :
    ∃ gate, BasicAuthMiddleware options = Except.ok gate ∧
      ∀ authorization : String,
        ((gate authorization).proceeds = true ↔ authorization = authorizationHeader u p) ∧
        (authorization = authorizationHeader u p →
          gate authorization = GateResult.next (some u)) ∧
        (authorization ≠ authorizationHeader u p →
          gate authorization =
            GateResult.abortWithStatus 401 "Basic realm=\"Authorization Required\"") := by
  have hpairs : processAccounts [(u, p)] = Except.ok [⟨authorizationHeader u p, u⟩] := by
    simp [processAccounts, hne, List.mapM, List.mapM.loop, bind, Except.bind, pure,
      Except.pure]
  have hbuild : BasicAuthMiddleware options = gin_BasicAuth [(u, p)] := by
    unfold BasicAuthMiddleware
    rw [hen, hcred, splitN_colon_some u p hcolon]
    rfl
  have hhdr := authorizationHeader_ne_empty u p
  refine ⟨_, by rw [hbuild]; unfold gin_BasicAuth; rw [hpairs], ?_⟩
  intro authorization
  by_cases ha : authorization = authorizationHeader u p
  · subst ha
    simp [searchCredential, hhdr, GateResult.proceeds]
  · have ha2 : ¬ authorizationHeader u p = authorization := fun e => ha e.symm
    by_cases he : authorization = ""
    · simp [searchCredential, he, GateResult.proceeds, ha, Ne.symm hhdr]
    · simp [searchCredential, he, GateResult.proceeds, ha, ha2]

/-- The gate for the credential `admin:secret`: no header is challenged,
`admin`/`secret` proceeds, `admin`/`wrong` is challenged. -/
theorem basicAuth_gate_admin_secret :
    ((⟨true, "admin:secret", false, 0, 0⟩ : Options).EnableBasicAuth = true ∧
      (⟨true, "admin:secret", false, 0, 0⟩ : Options).Credential = "admin" ++ ":" ++ "secret" ∧
      ':' ∉ "admin".data ∧ "admin" ≠ "") ∧
    (∃ gate, BasicAuthMiddleware ⟨true, "admin:secret", false, 0, 0⟩ = Except.ok gate ∧
      ∀ authorization : String,
        ((gate authorization).proceeds = true ↔
          authorization = authorizationHeader "admin" "secret") ∧
        (authorization = authorizationHeader "admin" "secret" →
          gate authorization = GateResult.next (some "admin")) ∧
        (authorization ≠ authorizationHeader "admin" "secret" →
          gate authorization =
            GateResult.abortWithStatus 401 "Basic realm=\"Authorization Required\"")) ∧
    (runGate (BasicAuthMiddleware ⟨true, "admin:secret", false, 0, 0⟩) ""
        = some (GateResult.abortWithStatus 401 "Basic realm=\"Authorization Required\"") ∧
      runGate (BasicAuthMiddleware ⟨true, "admin:secret", false, 0, 0⟩)
          (authorizationHeader "admin" "secret")
        = some (GateResult.next (some "admin")) ∧
      runGate (BasicAuthMiddleware ⟨true, "admin:secret", false, 0, 0⟩)
          (authorizationHeader "admin" "wrong")
        = some (GateResult.abortWithStatus 401 "Basic realm=\"Authorization Required\"")) :=
  ⟨⟨rfl, by decide, by decide, by decide⟩,
   basicAuth_gate ⟨true, "admin:secret", false, 0, 0⟩ "admin" "secret" rfl (by decide)
     (by decide) (by decide),
   by decide⟩

/-- The comparison with the expected header is exact: the scheme written in
lower case, which names the same credentials, is challenged. -/
theorem basicAuth_gate_exact_header :
    authorizationHeader "admin" "secret" = "Basic YWRtaW46c2VjcmV0" ∧
    runGate (BasicAuthMiddleware ⟨true, "admin:secret", false, 0, 0⟩) "basic YWRtaW46c2VjcmV0"
      = some (GateResult.abortWithStatus 401 "Basic realm=\"Authorization Required\"") := by
  decide

/-- C3, what the code does at an empty user name: the credential `":secret"`
parses into the user `""` (the text before the first colon) and the password
`"secret"`; with basic auth enabled `BasicAuthMiddleware` hands that pair to
`gin.BasicAuth` unchecked, which panics, so no gate is built and no request
is answered, while the credential `"secret"` without a colon still yields a
gate. -/
theorem basicAuth_empty_user_panics :
    ":secret" = "" ++ ":" ++ "secret" ∧ ':' ∉ "".data ∧
    strings_SplitN ":secret" ":" 2 = ["", "secret"] ∧
    (¬ ∃ gate, BasicAuthMiddleware ⟨true, ":secret", false, 0, 0⟩ = Except.ok gate) ∧
    runGate (BasicAuthMiddleware ⟨true, ":secret", false, 0, 0⟩)
      (authorizationHeader "" "secret") = none ∧
    runGate (BasicAuthMiddleware ⟨true, "secret", false, 0, 0⟩) ""
      = some (GateResult.next none) := by
  refine ⟨by decide, by decide, by decide, ?_, by decide, by decide⟩
  rintro ⟨gate, hg⟩
  have hnone : runGate (BasicAuthMiddleware ⟨true, ":secret", false, 0, 0⟩) "" = none := by
    decide
  rw [hg] at hnone
  simp [runGate] at hnone

/-! ## The WebSocket handler -/

theorem run_counter (s : MountState) (evs : List WsEvent) :
    (s.run evs).handlers.counter = s.handlers.counter := by
  induction evs generalizing s with
  | nil => rfl
  | cons e es ih =>
    have hstep : (s.step e).handlers.counter = s.handlers.counter := by
      cases e with
      | upgradeFailed err => rfl
      | upgraded => rfl
      | closed err =>
        simp only [MountState.step, GinHandlers.afterProcess]
        cases s.handlers.options.Once <;> rfl
    show ((s.step e).run es).handlers.counter = s.handlers.counter
    rw [ih, hstep]

/-- C5, what the code does: whatever steps a fresh mount goes through, the
WebSocket handler leaves the counter at its initial value, so the active count
stays 0; after one successful upgrade whose connection is still open the
count is 0 while upgrades minus closes is 1. -/
theorem websocket_counter_never_updated (options : Options) (parentCancelled : Bool) :
    (∀ evs : List WsEvent,
      ((MountState.init options parentCancelled).run evs).handlers.Counter.count = 0) ∧
    wellFormed 0 [WsEvent.upgraded] = true ∧
    ((MountState.init options parentCancelled).run [WsEvent.upgraded]).handlers.Counter.count
      = 0 ∧
    (((MountState.init options parentCancelled).run [WsEvent.upgraded]).upgrades : Int)
      - (((MountState.init options parentCancelled).run [WsEvent.upgraded]).closes : Int) = 1 := by
  have hall : ∀ evs : List WsEvent,
      ((MountState.init options parentCancelled).run evs).handlers.Counter.count = 0 := by
    intro evs
    show ((MountState.init options parentCancelled).run evs).handlers.counter.connections = 0
    rw [run_counter]
    rfl
  exact ⟨hall, rfl, hall _, rfl⟩

/-- C6: on a mount configured with `Once`, after the handler has run for one
successfully upgraded connection, whether `processWSConn` returned an error or
not, the mount's context is cancelled; running the handler for a second
connection, or calling `Cancel`, leaves the mount as it is, context
cancelled. -/
theorem websocket_once_cancels (h : GinHandlers) (err1 err2 : Option String)
    (hOnce : h.options.Once = true) :
    (h.WebSocket none err1).Context = true ∧
    (h.WebSocket none err1).WebSocket none err2 = h.WebSocket none err1 ∧
    ((h.WebSocket none err1).WebSocket none err2).Context = true ∧
    (h.WebSocket none err1).Cancel = h.WebSocket none err1 := by
  have h1 : h.WebSocket none err1 = h.cancel := by
    simp [GinHandlers.WebSocket, GinHandlers.afterProcess, hOnce]
  have h2 : h.cancel.WebSocket none err2 = h.cancel := by
    have hO : h.cancel.options.Once = true := hOnce
    simp [GinHandlers.WebSocket, GinHandlers.afterProcess, hO, GinHandlers.cancel]
  rw [h1, h2]
  exact ⟨rfl, rfl, rfl, rfl⟩

theorem websocket_once_cancels_witness :
    (NewGinHandlers ⟨false, "", true, 0, 0⟩ false).options.Once = true ∧
    (NewGinHandlers ⟨false, "", true, 0, 0⟩ false).Context = false ∧
    ((NewGinHandlers ⟨false, "", true, 0, 0⟩ false).WebSocket none none).Context = true ∧
    ((NewGinHandlers ⟨false, "", true, 0, 0⟩ false).WebSocket none (some "EOF")).Context
      = true :=
  ⟨rfl, rfl,
   (websocket_once_cancels (NewGinHandlers ⟨false, "", true, 0, 0⟩ false) none none rfl).1,
   (websocket_once_cancels (NewGinHandlers ⟨false, "", true, 0, 0⟩ false) (some "EOF")
     none rfl).1⟩

/-- C10: in every run of the WebSocket handler in which `Once` is false, or in
which the upgrade fails (with `Once` set or not), the context is cancelled
after the handler returns exactly if it was before; a failed upgrade leaves
the counter, and the whole mount, unchanged. -/
theorem websocket_frame (h : GinHandlers) (upgrade processErr : Option String)
    (hcond : h.options.Once = false ∨ upgrade.isSome = true) :
    (h.WebSocket upgrade processErr).Context = h.Context ∧
    (upgrade.isSome = true →
      (h.WebSocket upgrade processErr).Counter = h.Counter ∧
      h.WebSocket upgrade processErr = h) := by
  cases upgrade with
  | some e => exact ⟨rfl, fun _ => ⟨rfl, rfl⟩⟩
  | none =>
    rcases hcond with hO | hU
    · refine ⟨?_, fun hU => absurd hU (by simp)⟩
      simp [GinHandlers.WebSocket, GinHandlers.afterProcess, hO]
    · exact absurd hU (by simp)

theorem websocket_frame_witness :
    ((NewGinHandlers ⟨false, "", true, 0, 0⟩ false).options.Once = false ∨
      (some "bad handshake" : Option String).isSome = true) ∧
    ((NewGinHandlers ⟨false, "", true, 0, 0⟩ false).WebSocket (some "bad handshake") none).Context
      = false ∧
    ((NewGinHandlers ⟨false, "", true, 0, 0⟩ false).WebSocket (some "bad handshake") none).Counter
      = newCounter 0 :=
  ⟨Or.inr rfl,
   (websocket_frame (NewGinHandlers ⟨false, "", true, 0, 0⟩ false) (some "bad handshake") none
     (Or.inr rfl)).1,
   ((websocket_frame (NewGinHandlers ⟨false, "", true, 0, 0⟩ false) (some "bad handshake") none
     (Or.inr rfl)).2 rfl).1⟩

end Gotty
